import Mathlib

/-!
# Artemia firmware core: history persistence, log lines, schedule table, clock reconciliation

A shallow embedding of `src/main.c`.

* `time_t` is a signed 64-bit integer (`static_assert(sizeof(time1) == 8)`); values are
  `Int`, and their in-memory image is eight bytes, least significant first (the target is a
  little-endian Cortex-M4).
* A record stream is the list of its bytes.  `FILE` is a stream together with a position.
  `fseek`, `fread` and `fwrite` follow the C library contract: a seek whose target would be
  negative fails and leaves the position where it was, a read at the end of the stream
  transfers the bytes that are there (possibly none) and leaves the rest of the destination
  untouched.  The return values of these calls are ignored by `main.c`, so they are not part
  of the model.
* The loop of `load_callback` has no bound in the source; the model takes a fuel argument
  and answers `none` when it runs out.
-/

namespace Artemia

/-! ## time_t and its memory image -/

/-- The values a `time_t` can hold. -/
def time_t_ok (t : Int) : Prop := -(2 : Int) ^ 63 ≤ t ∧ t < (2 : Int) ^ 63

instance (t : Int) : Decidable (time_t_ok t) := by
  unfold time_t_ok; infer_instance

/-- The eight bytes of an unsigned 64-bit word, least significant first. -/
def u64_bytes (n : Nat) : List Nat :=
  [n % 256, n / 256 % 256, n / 256 ^ 2 % 256, n / 256 ^ 3 % 256,
   n / 256 ^ 4 % 256, n / 256 ^ 5 % 256, n / 256 ^ 6 % 256, n / 256 ^ 7 % 256]

/-- The memory image of a `time_t` (two's complement, little endian). -/
def time_t_bytes (t : Int) : List Nat := u64_bytes (t % (2 : Int) ^ 64).toNat

/-- The unsigned 64-bit word held in (the first eight bytes of) a buffer. -/
def u64_of_bytes (bs : List Nat) : Nat :=
  (bs.take 8).foldr (fun b acc => b % 256 + 256 * acc) 0

/-- The `time_t` held in an eight-byte buffer. -/
def time_t_of_bytes (bs : List Nat) : Int :=
  let n := u64_of_bytes bs
  if n < 2 ^ 63 then (n : Int) else (n : Int) - (2 : Int) ^ 64

/-! ## Streams -/

/-- An open stream: the path it was opened on, the bytes of the file, the position. -/
structure FILE where
  path : String
  data : List Nat
  pos : Nat
deriving DecidableEq, Repr

/-- The `whence` argument of `fseek`. -/
inductive Whence where
  | SEEK_SET
  | SEEK_CUR
  | SEEK_END
deriving DecidableEq, Repr

/-- The call `fseek(file, offset, whence)`: a target before the start of the stream is
refused and the position is left unchanged. -/
def fseek (file : FILE) (offset : Int) (whence : Whence) : FILE :=
  let base : Int :=
    match whence with
    | .SEEK_SET => 0
    | .SEEK_CUR => (file.pos : Int)
    | .SEEK_END => (file.data.length : Int)
  if base + offset < 0 then file else { file with pos := (base + offset).toNat }

/-- The call `fread(&buf, size, 1, file)`: the bytes available at the position, at most
`size` of them, overwrite the start of `buf`; the position advances by what was read. -/
def fread (buf : List Nat) (size : Nat) (file : FILE) : List Nat × FILE :=
  let got := (file.data.drop file.pos).take size
  (got ++ buf.drop got.length, { file with pos := file.pos + got.length })

/-- The call `fwrite(&v, 8, 1, file)` on a stream opened for appending: the bytes go to
the end of the file whatever the position is.  The write is taken to succeed (the source
leaves running out of space as a FIXME). -/
def fwrite (bytes : List Nat) (file : FILE) : FILE :=
  { file with data := file.data ++ bytes, pos := file.data.length + bytes.length }

/-- The filesystem: the content of each path that exists. -/
abbrev Store := String → Option (List Nat)

/-- The modes `main.c` opens record streams with. -/
inductive Mode where
  | r
  | a
deriving DecidableEq, Repr

/-- The call `fopen(path, mode)`.  `avail` says whether the filesystem layer can hand out
a stream at all; `"r"` fails on a missing file, `"a"` creates it. -/
def fopen (fs : Store) (avail : Bool) (path : String) (mode : Mode) : Option FILE :=
  if avail then
    match mode, fs path with
    | .r, none => none
    | .r, some d => some { path := path, data := d, pos := 0 }
    | .a, none => some { path := path, data := [], pos := 0 }
    | .a, some d => some { path := path, data := d, pos := d.length }
  else none

/-- The call `fclose(file)` on a stream that was written: the file now holds its data. -/
def fclose (fs : Store) (file : FILE) : Store :=
  fun p => if p = file.path then some file.data else fs p

/-! ## History persistence (`load_callback`, `save_callback`) -/

/-- The path of a task's record stream: `"fs:/"` followed by the task name. -/
def record_path (name : String) : String := "fs:/" ++ name

/-- The `do { ... } while (time1 != time2)` loop of `load_callback`; the value is what
`*last_run` receives when the loop is left. -/
def load_loop : Nat → FILE → List Nat → List Nat → Option Int
  | 0, _, _, _ => none
  | fuel + 1, file, time1, time2 =>
    let r1 := fread time1 8 file
    let r2 := fread time2 8 r1.2
    let file3 := fseek r2.2 (-32) .SEEK_CUR
    if time_t_of_bytes r1.1 ≠ time_t_of_bytes r2.1 then load_loop fuel file3 r1.1 r2.1
    else some (time_t_of_bytes r1.1)

/-- The function `load_callback(name, &last_run)`.  `time1` and `time2` are the contents
of the two uninitialised locals when the function is entered. -/
def load_callback (fs : Store) (avail : Bool) (name : String)
    (time1 time2 : List Nat) (fuel : Nat) : Option Int :=
  match fopen fs avail (record_path name) .r with
  | none => some 0
  | some file => load_loop fuel (fseek file (-16) .SEEK_END) time1 time2

/-- The function `save_callback(name, last_run)`. -/
def save_callback (fs : Store) (avail : Bool) (name : String) (last_run : Int) : Store :=
  match fopen fs avail (record_path name) .a with
  | none => fs
  | some file =>
    let file1 := fwrite (time_t_bytes last_run) file
    let file2 := fwrite (time_t_bytes last_run) file1
    fclose fs file2

/-- The bytes of a stream made of whole written pairs. -/
def pairs_bytes : List (Int × Int) → List Nat
  | [] => []
  | p :: rest => time_t_bytes p.1 ++ time_t_bytes p.2 ++ pairs_bytes rest

/-! ## Log lines (`time_to_string`, `write_csv_line`) -/

/-- The search behind `ceil_log10`: the least `k` from `k` on with `n ≤ 10 ^ k`, looking
at most `fuel` steps ahead. -/
def ceil_log10_from (n : Nat) : Nat → Nat → Nat
  | 0, k => k
  | fuel + 1, k => if n ≤ 10 ^ k then k else ceil_log10_from n fuel (k + 1)

/-- The expression `ceil(log10(tv_sec))` converted to `int`, for a 64-bit `tv_sec`: the
least `k` with `tv_sec ≤ 10 ^ k`.  The logarithm is taken exactly; at the powers of ten
up to `10 ^ 22` the fdlibm `log10` that newlib ships returns the exponent exactly as well.
At `0` the logarithm is minus infinity and its conversion to `int` has no defined value. -/
def ceil_log10 (n : Nat) : Option Nat :=
  if n = 0 then none else some (ceil_log10_from n 20 0)

/-- The `for` loop of `time_to_string`: `k` is the number of positions left, the pointer
`c` is `buffer + k - 1`. -/
def time_to_string_loop : Nat → List Nat → Nat → List Nat
  | 0, buffer, _ => buffer
  | k + 1, buffer, tmp => time_to_string_loop k (buffer.set k (48 + tmp % 10)) (tmp / 10)

/-- The function `time_to_string(buffer, tv_sec)`; the value is the buffer afterwards. -/
def time_to_string (buffer : List Nat) (tv_sec : Nat) : Option (List Nat) :=
  (ceil_log10 tv_sec).map fun max => time_to_string_loop max buffer tv_sec

/-- The bytes of a text. -/
def bytes_of (s : String) : List Nat := s.toList.map Char.toNat

/-- The function `write_csv_line(fp, data)`, given the time the RTC answers; the stream is
one opened for appending, and `fprintf(fp, "%s,%lu\r\n", buffer, data)` sends it the buffer
up to its first zero byte, a comma, `data` in decimal, carriage return and line feed. -/
def write_csv_line (fp : FILE) (rtc_time : Int) (data : Nat) : Option FILE :=
  (time_to_string (List.replicate 21 0) (rtc_time % (2 : Int) ^ 64).toNat).map fun buffer =>
    fwrite (buffer.takeWhile (fun b => b ≠ 0) ++ [44] ++ bytes_of (Nat.repr data) ++ [13, 10]) fp

/-- The line the log format asks for: the time in decimal, a comma, the value in decimal,
carriage return and line feed. -/
def csv_line_format (time : Nat) (data : Nat) : List Nat :=
  bytes_of (Nat.repr time) ++ [44] ++ bytes_of (Nat.repr data) ++ [13, 10]

/-! ## The schedule table (`tasks_`) -/

/-- The schedule of a task: hour, minute, second, each `-1` for any. -/
structure scron_schedule where
  hour : Int
  minute : Int
  second : Int
deriving DecidableEq, Repr

/-- The task functions of `main.c`. -/
inductive TaskFunction where
  | task_get_temperature_data
  | task_get_pressure_data
  | task_get_light_data
  | task_get_microphone_data
  | task_send_lora
deriving DecidableEq, Repr

/-- An entry of the schedule table; the voltage is the decimal written in the source. -/
structure scron_task where
  name : String
  minimum_voltage : ℚ
  function : TaskFunction
  schedule : scron_schedule
deriving DecidableEq

/-- The table `tasks_`. -/
def tasks_ : List scron_task :=
  [ { name := "task_get_temperature_data", minimum_voltage := 1.8,
      function := .task_get_temperature_data,
      schedule := { hour := -1, minute := -1, second := 10 } },
    { name := "task_get_pressure_data", minimum_voltage := 1.9,
      function := .task_get_pressure_data,
      schedule := { hour := -1, minute := -1, second := 20 } },
    { name := "task_get_light_data", minimum_voltage := 1.8,
      function := .task_get_light_data,
      schedule := { hour := -1, minute := -1, second := 30 } },
    { name := "task_get_microphone_data", minimum_voltage := 2.00,
      function := .task_get_microphone_data,
      schedule := { hour := -1, minute := -1, second := 40 } },
    { name := "task_send_lora", minimum_voltage := 1.8,
      function := .task_send_lora,
      schedule := { hour := -1, minute := -1, second := 50 } } ]

/-- Modelled from the spec: the matching rule of the scheduler engine, which is not in
`main.c`.  A schedule matches a time of day when each of its fields is the wildcard or
equals the corresponding field of the time. -/
def schedule_matches (s : scron_schedule) (hour minute second : Int) : Bool :=
  (s.hour = -1 ∨ s.hour = hour) ∧ (s.minute = -1 ∨ s.minute = minute) ∧
    (s.second = -1 ∨ s.second = second)

/-! ## Clock reconciliation in the run loop (`main`) -/

/-- The C `struct timeval`. -/
structure timeval where
  tv_sec : Int
  tv_usec : Int
deriving DecidableEq, Repr

/-- The `for` loop over `scron.history` in `main`: the value is `update_time` after the
loop, `history` being the `last_run` fields in index order. -/
def update_time_loop (now_sec : Int) : List Int → Int → Int
  | [], update_time => update_time
  | last_run :: rest, update_time =>
    update_time_loop now_sec rest (if last_run > now_sec then last_run else update_time)

/-- The reconciliation block of `main`: the first component is `now` as handed to
`am1815_write_time` (or as it was, when nothing is written), the second is the time
written to the real-time clock, if any. -/
def reconcile (history : List Int) (now : timeval) : timeval × Option timeval :=
  let update_time := update_time_loop now.tv_sec history 0
  if update_time ≠ 0 then
    let now1 : timeval := { now with tv_sec := update_time }
    (now1, some now1)
  else (now, none)

/-! ## Lemmas on the memory image -/

theorem u64_bytes_length (n : Nat) : (u64_bytes n).length = 8 := rfl

theorem time_t_bytes_length (t : Int) : (time_t_bytes t).length = 8 := rfl

theorem u64_of_bytes_u64_bytes (n : Nat) (h : n < 2 ^ 64) : u64_of_bytes (u64_bytes n) = n := by
  simp only [u64_of_bytes, u64_bytes, List.take, List.foldr]
  omega

theorem time_t_of_bytes_time_t_bytes (t : Int) (h : time_t_ok t) :
    time_t_of_bytes (time_t_bytes t) = t := by
  obtain ⟨h1, h2⟩ := h
  have hn : (t % (2 : Int) ^ 64).toNat < 2 ^ 64 := by omega
  simp only [time_t_of_bytes, time_t_bytes, u64_of_bytes_u64_bytes _ hn]
  split_ifs with hc <;> omega

/-- Only the first eight bytes of a buffer count. -/
theorem time_t_of_bytes_append (t : Int) (rest : List Nat) (h : time_t_ok t) :
    time_t_of_bytes (time_t_bytes t ++ rest) = t := by
  have e : u64_of_bytes (time_t_bytes t ++ rest) = u64_of_bytes (time_t_bytes t) := by
    unfold u64_of_bytes
    rw [List.take_append_of_le_length (by rw [time_t_bytes_length]),
      List.take_of_length_le (by rw [time_t_bytes_length])]
  have := time_t_of_bytes_time_t_bytes t h
  unfold time_t_of_bytes at this ⊢
  rw [e]; exact this

theorem pairs_bytes_length (ps : List (Int × Int)) : (pairs_bytes ps).length = 16 * ps.length := by
  induction ps with
  | nil => rfl
  | cons p rest ih =>
    simp only [pairs_bytes, List.length_append, time_t_bytes_length, ih, List.length_cons]
    omega

theorem pairs_bytes_append (ps qs : List (Int × Int)) :
    pairs_bytes (ps ++ qs) = pairs_bytes ps ++ pairs_bytes qs := by
  induction ps with
  | nil => rfl
  | cons p rest ih => simp [pairs_bytes, ih]

/-! ## Lemmas on the stream operations -/

/-- A read of eight bytes that are all there. -/
theorem fread_full (path : String) (data L B R buf : List Nat) (pos : Nat)
    (hdata : data = L ++ B ++ R) (hpos : pos = L.length) (hB : B.length = 8) :
    fread buf 8 ⟨path, data, pos⟩ = (B ++ buf.drop 8, ⟨path, data, pos + 8⟩) := by
  subst hdata hpos
  have h1 : List.take 8 (List.drop L.length (L ++ B ++ R)) = B := by
    rw [List.append_assoc, List.drop_left, List.take_left' hB]
  simp only [fread, h1, hB]

/-- One turn of the loop of `load_callback` on a pair that is wholly in the stream. -/
theorem load_loop_step (n : Nat) (path : String) (data L R b1 b2 : List Nat) (pos : Nat)
    (a b : Int) (ha : time_t_ok a) (hb : time_t_ok b)
    (hdata : data = L ++ time_t_bytes a ++ time_t_bytes b ++ R) (hpos : pos = L.length) :
    load_loop (n + 1) ⟨path, data, pos⟩ b1 b2 =
      if a ≠ b then
        load_loop n (fseek ⟨path, data, pos + 16⟩ (-32) .SEEK_CUR)
          (time_t_bytes a ++ b1.drop 8) (time_t_bytes b ++ b2.drop 8)
      else some a := by
  have r1 : fread b1 8 ⟨path, data, pos⟩ = (time_t_bytes a ++ b1.drop 8, ⟨path, data, pos + 8⟩) :=
    fread_full path data L (time_t_bytes a) (time_t_bytes b ++ R) b1 pos
      (by rw [hdata]; simp) hpos (time_t_bytes_length a)
  have r2 : fread b2 8 ⟨path, data, pos + 8⟩ =
      (time_t_bytes b ++ b2.drop 8, ⟨path, data, pos + 8 + 8⟩) :=
    fread_full path data (L ++ time_t_bytes a) (time_t_bytes b) R b2 (pos + 8)
      (by rw [hdata]) (by rw [hpos, List.length_append, time_t_bytes_length])
      (time_t_bytes_length b)
  simp only [load_loop, r1, r2, time_t_of_bytes_append a _ ha, time_t_of_bytes_append b _ hb,
    Nat.add_assoc]

/-- The record stream of a task after `save_callback`, when the store can be opened. -/
theorem save_callback_stream (fs : Store) (name : String) (t : Int) :
    save_callback fs true name t (record_path name) =
      some ((fs (record_path name)).getD [] ++ time_t_bytes t ++ time_t_bytes t) := by
  unfold save_callback fopen
  cases h : fs (record_path name) <;> simp [fclose, fwrite]

/-- The scan from the tail: with the stream `L ++ (v, v) ++ post ++ R`, every pair of `post`
unequal, and the position on the last pair of `post`, the loop returns `v`. -/
theorem load_loop_scan (v : Int) (hv : time_t_ok v) (post : List (Int × Int)) :
    ∀ (path : String) (L R b1 b2 : List Nat) (n : Nat),
      (∀ p ∈ post, time_t_ok p.1 ∧ time_t_ok p.2 ∧ p.1 ≠ p.2) → post.length < n →
      load_loop n ⟨path, L ++ time_t_bytes v ++ time_t_bytes v ++ pairs_bytes post ++ R,
        L.length + 16 * post.length⟩ b1 b2 = some v := by
  induction post using List.reverseRecOn with
  | nil =>
    intro path L R b1 b2 n _ hn
    obtain ⟨m, rfl⟩ : ∃ m, n = m + 1 := ⟨n - 1, by simp at hn; omega⟩
    rw [load_loop_step m path _ L (pairs_bytes [] ++ R) b1 b2 _ v v hv hv (by simp) (by simp)]
    simp
  | append_singleton post' p ih =>
    intro path L R b1 b2 n hpost hn
    obtain ⟨m, rfl⟩ : ∃ m, n = m + 1 := ⟨n - 1, by simp at hn; omega⟩
    have hp := hpost p (by simp)
    have hlen : (L ++ time_t_bytes v ++ time_t_bytes v ++ pairs_bytes post').length =
        L.length + 16 * (post' ++ [p]).length := by
      simp [pairs_bytes_length, time_t_bytes_length]; omega
    rw [load_loop_step m path _ (L ++ time_t_bytes v ++ time_t_bytes v ++ pairs_bytes post') R
      b1 b2 _ p.1 p.2 hp.1 hp.2.1
      (by simp [pairs_bytes_append, pairs_bytes]) hlen.symm]
    rw [if_pos hp.2.2]
    have hseek : fseek ⟨path, L ++ time_t_bytes v ++ time_t_bytes v ++ pairs_bytes (post' ++ [p]) ++ R,
        L.length + 16 * (post' ++ [p]).length + 16⟩ (-32) .SEEK_CUR =
        ⟨path, L ++ time_t_bytes v ++ time_t_bytes v ++ pairs_bytes post' ++
          (time_t_bytes p.1 ++ time_t_bytes p.2 ++ R), L.length + 16 * post'.length⟩ := by
      simp only [fseek, List.length_append, List.length_singleton]
      rw [if_neg (by omega)]
      simp only [pairs_bytes_append, pairs_bytes, List.append_assoc, List.append_nil,
        FILE.mk.injEq, true_and]
      omega
    rw [hseek]
    exact ih path L _ _ _ m (fun q hq => hpost q (by simp [hq])) (by simp at hn; omega)

/-- C1. Persistence round trip: whatever the filesystem held before (the task's record
stream with any content, or no stream at all), when the store can be opened
`save_callback(name, t)` followed by `load_callback(name)` sets `last_run` to `t`; the loop
of `load_callback` is left in its first turn. -/
theorem save_load_round_trip (fs : Store) (name : String) (t : Int) (time1 time2 : List Nat)
    (fuel : Nat) (ht : time_t_ok t) (hfuel : 0 < fuel) :
    load_callback (save_callback fs true name t) true name time1 time2 fuel = some t := by
  unfold load_callback fopen
  simp only [save_callback_stream, if_true]
  have h := load_loop_scan t ht [] (record_path name) ((fs (record_path name)).getD []) []
    time1 time2 fuel (by simp) (by simpa using hfuel)
  simp only [pairs_bytes, List.append_nil, List.length_nil, Nat.mul_zero, Nat.add_zero] at h
  have hs : fseek ⟨record_path name,
      (fs (record_path name)).getD [] ++ time_t_bytes t ++ time_t_bytes t, 0⟩ (-16) .SEEK_END =
      ⟨record_path name, (fs (record_path name)).getD [] ++ time_t_bytes t ++ time_t_bytes t,
        ((fs (record_path name)).getD []).length⟩ := by
    simp only [fseek, List.length_append, time_t_bytes_length]
    rw [if_neg (by omega)]
    simp only [FILE.mk.injEq, true_and]
    omega
  rw [hs]; exact h

/-- Witness for C1: a stream holding three stray bytes, saved with `1700000000`. -/
theorem save_load_round_trip_witness :
    load_callback
      (save_callback (fun p => if p = "fs:/task_send_lora" then some [1, 2, 3] else none) true
        "task_send_lora" 1700000000) true "task_send_lora" [] [] 1 = some 1700000000 :=
  save_load_round_trip _ "task_send_lora" 1700000000 [] [] 1 (by decide) (by decide)

/-- C3. Backward-scan recovery: on a record stream made of whole written pairs, of which
`(v, v)` is the pair with two equal values closest to the tail (every pair after it has two
different values), `load_callback` sets `last_run` to `v`, after one turn of its loop per
pair from the tail down to `(v, v)`; with nothing after `(v, v)` the last two values are
equal and `v` is returned in the first turn. -/
theorem load_callback_backward_scan (fs : Store) (name : String) (pre post : List (Int × Int))
    (v : Int) (time1 time2 : List Nat) (fuel : Nat)
    (hfs : fs (record_path name) = some (pairs_bytes (pre ++ (v, v) :: post)))
    (hv : time_t_ok v) (hpost : ∀ p ∈ post, time_t_ok p.1 ∧ time_t_ok p.2 ∧ p.1 ≠ p.2)
    (hfuel : post.length < fuel) :
    load_callback fs true name time1 time2 fuel = some v := by
  unfold load_callback fopen
  simp only [hfs, if_true]
  have h := load_loop_scan v hv post (record_path name) (pairs_bytes pre) [] time1 time2 fuel
    hpost hfuel
  have hd : pairs_bytes (pre ++ (v, v) :: post) =
      pairs_bytes pre ++ time_t_bytes v ++ time_t_bytes v ++ pairs_bytes post ++ [] := by
    simp [pairs_bytes_append, pairs_bytes]
  have hs : fseek ⟨record_path name, pairs_bytes (pre ++ (v, v) :: post), 0⟩ (-16) .SEEK_END =
      ⟨record_path name,
        pairs_bytes pre ++ time_t_bytes v ++ time_t_bytes v ++ pairs_bytes post ++ [],
        (pairs_bytes pre).length + 16 * post.length⟩ := by
    simp only [fseek, pairs_bytes_length, List.length_append, List.length_cons]
    rw [if_neg (by omega)]
    simp only [FILE.mk.injEq, hd, true_and, pairs_bytes_length]
    omega
  rw [hs]; exact h

/-- Witness for C3: the stream `(3, 3) (5, 5) (7, 9)`, whose last pair was torn. -/
theorem load_callback_backward_scan_witness :
    load_callback
      (fun p => if p = "fs:/task_send_lora" then some (pairs_bytes [(3, 3), (5, 5), (7, 9)])
        else none) true "task_send_lora" [] [] 2 = some 5 :=
  load_callback_backward_scan _ "task_send_lora" [(3, 3)] [(7, 9)] 5 [] [] 2 (by decide)
    (by decide) (by decide) (by decide)

/-- C6. Append-only save: when the store can be opened, `save_callback` leaves the task's
record stream equal to what it was followed by the eight bytes of `t` twice, sixteen bytes
more and nothing of the old content touched, and leaves every other file alone; when the
store cannot be opened the filesystem is unchanged. -/
theorem save_callback_appends (fs : Store) (name : String) (s : List Nat) (t : Int)
    (hfs : fs (record_path name) = some s) :
    save_callback fs true name t (record_path name) =
        some (s ++ time_t_bytes t ++ time_t_bytes t) ∧
      (time_t_bytes t).length = 8 ∧
      (s ++ time_t_bytes t ++ time_t_bytes t).length = s.length + 16 ∧
      (s ++ time_t_bytes t ++ time_t_bytes t).take s.length = s ∧
      (∀ p, p ≠ record_path name → save_callback fs true name t p = fs p) ∧
      save_callback fs false name t = fs := by
  refine ⟨?_, rfl, ?_, ?_, ?_, ?_⟩
  · rw [save_callback_stream, hfs]; rfl
  · simp [time_t_bytes_length]
  · rw [List.append_assoc, List.take_left]
  · intro p hp
    unfold save_callback fopen
    cases h : fs (record_path name) <;> simp [fclose, fwrite, hp]
  · rfl

/-- Witness for C6: appending `1700000000` to a stream of three bytes. -/
theorem save_callback_appends_witness :
    save_callback (fun p => if p = "fs:/task_send_lora" then some [1, 2, 3] else none) true
        "task_send_lora" 1700000000 (record_path "task_send_lora") =
      some ([1, 2, 3] ++ time_t_bytes 1700000000 ++ time_t_bytes 1700000000) :=
  (save_callback_appends _ "task_send_lora" [1, 2, 3] 1700000000 (by decide)).1

/-- At the end of a stream shorter than two pairs the loop cannot move: nothing is read, the
seek back is refused, and two values that differ go on differing. -/
theorem load_loop_at_end (n : Nat) :
    ∀ (path : String) (data b1 b2 : List Nat) (pos : Nat), data.length ≤ pos → pos < 32 →
      time_t_of_bytes b1 ≠ time_t_of_bytes b2 → load_loop n ⟨path, data, pos⟩ b1 b2 = none := by
  induction n with
  | zero => intros; rfl
  | succ m ih =>
    intro path data b1 b2 pos hlen hpos hne
    have hd : List.drop pos data = [] := List.drop_eq_nil_of_le hlen
    have hk : fseek ⟨path, data, pos⟩ (-32) .SEEK_CUR = ⟨path, data, pos⟩ := by
      simp only [fseek]
      rw [if_pos (by omega)]
    simp only [load_loop, fread, hd, List.take_nil, List.nil_append, List.length_nil,
      List.drop_zero, Nat.add_zero, hk]
    rw [if_pos hne]
    exact ih path data b1 b2 pos hlen hpos hne

/-- The torn stream `(3, 3) (5, 5) 7`: the loop alternates between offsets 24 and 8 and is
never left. -/
theorem load_loop_torn (n : Nat) :
    ∀ (path : String) (b1 b2 : List Nat),
      load_loop n ⟨path, pairs_bytes [(3, 3), (5, 5)] ++ time_t_bytes 7, 24⟩ b1 b2 = none ∧
      load_loop n ⟨path, pairs_bytes [(3, 3), (5, 5)] ++ time_t_bytes 7, 8⟩ b1 b2 = none := by
  induction n with
  | zero => intros; exact ⟨rfl, rfl⟩
  | succ m ih =>
    intro path b1 b2
    constructor
    · rw [load_loop_step m path _ (time_t_bytes 3 ++ time_t_bytes 3 ++ time_t_bytes 5) []
        b1 b2 24 5 7 (by decide) (by decide) (by decide) (by decide)]
      rw [if_pos (by decide)]
      have hk : fseek ⟨path, pairs_bytes [(3, 3), (5, 5)] ++ time_t_bytes 7, 24 + 16⟩ (-32)
          .SEEK_CUR = ⟨path, pairs_bytes [(3, 3), (5, 5)] ++ time_t_bytes 7, 8⟩ := by
        simp [fseek]
      rw [hk]
      exact (ih path _ _).2
    · rw [load_loop_step m path _ (time_t_bytes 3) (time_t_bytes 5 ++ time_t_bytes 7)
        b1 b2 8 3 5 (by decide) (by decide) (by decide) (by decide)]
      rw [if_pos (by decide)]
      have hk : fseek ⟨path, pairs_bytes [(3, 3), (5, 5)] ++ time_t_bytes 7, 8 + 16⟩ (-32)
          .SEEK_CUR = ⟨path, pairs_bytes [(3, 3), (5, 5)] ++ time_t_bytes 7, 24⟩ := by
        simp [fseek]
      rw [hk]
      exact (ih path _ _).1

/-- C2, at the stream `(3, 3) (5, 5)` followed by the first copy only of `7`: the claim has
`load_callback` return `5`; it returns nothing, for any number of turns of its loop and any
initial content of its locals. -/
theorem load_callback_torn_update (fuel : Nat) (time1 time2 : List Nat) :
    load_callback
      (fun p => if p = "fs:/task_send_lora" then
        some (pairs_bytes [(3, 3), (5, 5)] ++ time_t_bytes 7) else none)
      true "task_send_lora" time1 time2 fuel = none := by
  have hp : record_path "task_send_lora" = "fs:/task_send_lora" := by decide
  have hk : fseek ⟨"fs:/task_send_lora", pairs_bytes [(3, 3), (5, 5)] ++ time_t_bytes 7, 0⟩
      (-16) .SEEK_END =
      ⟨"fs:/task_send_lora", pairs_bytes [(3, 3), (5, 5)] ++ time_t_bytes 7, 24⟩ := by
    decide
  simp only [load_callback, fopen, hp, if_true, hk]
  exact (load_loop_torn fuel _ time1 time2).1

/-- C4, at a record stream that exists and is empty: with locals that happen to differ
`load_callback` never returns, with locals that happen to hold `7` twice it sets `last_run`
to `7`; only a stream that is missing (or a store that cannot be opened) gives `0`. -/
theorem load_callback_empty_stream :
    (∀ fuel, load_callback (fun p => if p = "fs:/task_send_lora" then some [] else none) true
        "task_send_lora" (time_t_bytes 1) (time_t_bytes 2) fuel = none) ∧
      load_callback (fun p => if p = "fs:/task_send_lora" then some [] else none) true
        "task_send_lora" (time_t_bytes 7) (time_t_bytes 7) 1 = some 7 ∧
      (∀ name time1 time2 fuel, load_callback (fun _ => none) true name time1 time2 fuel
        = some 0) ∧
      (∀ fs name time1 time2 fuel, load_callback fs false name time1 time2 fuel = some 0) := by
  refine ⟨?_, by decide, ?_, ?_⟩
  · intro fuel
    have hp : record_path "task_send_lora" = "fs:/task_send_lora" := by decide
    have hk : fseek ⟨"fs:/task_send_lora", [], 0⟩ (-16) .SEEK_END =
        ⟨"fs:/task_send_lora", [], 0⟩ := by decide
    simp only [load_callback, fopen, hp, if_true, hk]
    exact load_loop_at_end fuel _ _ _ _ 0 (by simp) (by decide) (by decide)
  · intros; rfl
  · intros; rfl

/-- C5, at the stream made of the one pair `(1, 2)`: the claim has `load_callback` stop at
the start of the stream and return `0`; it returns nothing, for any number of turns of its
loop and any initial content of its locals. -/
theorem load_callback_no_equal_pair (fuel : Nat) (time1 time2 : List Nat) :
    load_callback (fun p => if p = "fs:/task_send_lora" then some (pairs_bytes [(1, 2)])
      else none) true "task_send_lora" time1 time2 fuel = none := by
  have hp : record_path "task_send_lora" = "fs:/task_send_lora" := by decide
  have hk : fseek ⟨"fs:/task_send_lora", pairs_bytes [(1, 2)], 0⟩ (-16) .SEEK_END =
      ⟨"fs:/task_send_lora", pairs_bytes [(1, 2)], 0⟩ := by decide
  simp only [load_callback, fopen, hp, if_true, hk]
  cases fuel with
  | zero => rfl
  | succ m =>
    rw [load_loop_step m _ _ [] [] time1 time2 0 1 2 (by decide) (by decide) (by decide)
      (by decide)]
    rw [if_pos (by decide)]
    have hk2 : fseek ⟨"fs:/task_send_lora", pairs_bytes [(1, 2)], 0 + 16⟩ (-32) .SEEK_CUR =
        ⟨"fs:/task_send_lora", pairs_bytes [(1, 2)], 16⟩ := by decide
    rw [hk2]
    apply load_loop_at_end m _ _ _ _ 16 (by decide) (by decide)
    rw [time_t_of_bytes_append 1 _ (by decide), time_t_of_bytes_append 2 _ (by decide)]
    decide

/-! ## Log lines -/

theorem ceil_log10_from_spec (n : Nat) (fuel : Nat) :
    ∀ k, (k = 0 ∨ 10 ^ (k - 1) < n) → n ≤ 10 ^ (k + fuel) →
      n ≤ 10 ^ ceil_log10_from n fuel k ∧
        (ceil_log10_from n fuel k = 0 ∨ 10 ^ (ceil_log10_from n fuel k - 1) < n) := by
  induction fuel with
  | zero => intro k hk hn; exact ⟨by simpa [ceil_log10_from] using hn, hk⟩
  | succ f ih =>
    intro k hk hn
    simp only [ceil_log10_from]
    split_ifs with hc
    · exact ⟨hc, hk⟩
    · exact ih (k + 1) (Or.inr (by simpa using hc))
        (by rw [Nat.add_assoc, Nat.add_comm 1 f]; exact hn)

/-- The model of `ceil(log10(tv_sec))` is the least `k` with `tv_sec ≤ 10 ^ k`, for every
non-zero 64-bit `tv_sec`. -/
theorem ceil_log10_spec (n k : Nat) (h1 : 1 ≤ n) (h2 : n < 2 ^ 64)
    (hk : ceil_log10 n = some k) : n ≤ 10 ^ k ∧ (k = 0 ∨ 10 ^ (k - 1) < n) := by
  unfold ceil_log10 at hk
  rw [if_neg (by omega)] at hk
  cases hk
  exact ceil_log10_from_spec n 20 0 (Or.inl rfl) (by norm_num; omega)

/-- C7, at the RTC time `1000000000` (a power of ten) and the value `5`: `ceil(log10(..))`
is `9`, one less than the number of digits, so `time_to_string` leaves nine characters `0`
in the zeroed buffer and `write_csv_line` appends `000000000,5` and the line end, where the
log format asks for `1000000000,5` and the line end. -/
theorem write_csv_line_power_of_ten :
    ceil_log10 1000000000 = some 9 ∧
      time_to_string (List.replicate 21 0) 1000000000 =
        some (List.replicate 9 48 ++ List.replicate 12 0) ∧
      (write_csv_line ⟨"fs:/temperature_data.csv", [], 0⟩ 1000000000 5).map (fun f => f.data) =
        some (bytes_of "000000000,5" ++ [13, 10]) ∧
      csv_line_format 1000000000 5 = bytes_of "1000000000,5" ++ [13, 10] ∧
      (write_csv_line ⟨"fs:/temperature_data.csv", [], 0⟩ 1000000000 5).map (fun f => f.data) ≠
        some (csv_line_format 1000000000 5) := by
  decide

/-! ## The schedule table -/

/-- C8. Every task of `tasks_` has a non-wildcard schedule field: there are five tasks, each
has hour and minute `-1` and an exact second in `0..59`, the seconds being 10, 20, 30, 40,
50 in declaration order; so no task matches every time of day (none matches second `0`) and
no two tasks match the same time of day. -/
theorem tasks_schedule_fields :
    tasks_.length = 5 ∧
      (∀ t ∈ tasks_, t.schedule.hour = -1 ∧ t.schedule.minute = -1 ∧
        0 ≤ t.schedule.second ∧ t.schedule.second ≤ 59) ∧
      tasks_.map (fun t => t.schedule.second) = [10, 20, 30, 40, 50] ∧
      (∀ t ∈ tasks_, ∀ hour minute : Int, schedule_matches t.schedule hour minute 0 = false) ∧
      tasks_.Pairwise (fun a b => ∀ hour minute second : Int,
        ¬ (schedule_matches a.schedule hour minute second = true ∧
          schedule_matches b.schedule hour minute second = true)) := by
  refine ⟨rfl, by decide, by decide, ?_, ?_⟩
  · simp [tasks_, schedule_matches]
  · simp [tasks_, schedule_matches]

/-- C9. Task names are unique in `tasks_`: two distinct indices carry different names, and
the record stream paths built from them by `load_callback` and `save_callback` differ. -/
theorem tasks_names_unique (i j : Fin tasks_.length) (h : i ≠ j) :
    (tasks_.get i).name ≠ (tasks_.get j).name ∧
      record_path (tasks_.get i).name ≠ record_path (tasks_.get j).name := by
  revert i j; decide

/-- Witness for C9: the first and the last task. -/
theorem tasks_names_unique_witness :
    (tasks_.get ⟨0, by decide⟩).name ≠ (tasks_.get ⟨4, by decide⟩).name ∧
      record_path (tasks_.get ⟨0, by decide⟩).name ≠
        record_path (tasks_.get ⟨4, by decide⟩).name :=
  tasks_names_unique ⟨0, by decide⟩ ⟨4, by decide⟩ (by decide)

/-! ## Clock reconciliation -/

theorem update_time_loop_append (now_sec : Int) (xs ys : List Int) :
    ∀ u, update_time_loop now_sec (xs ++ ys) u =
      update_time_loop now_sec ys (update_time_loop now_sec xs u) := by
  induction xs with
  | nil => intro u; rfl
  | cons x rest ih => intro u; exact ih _

theorem update_time_loop_none_ahead (now_sec : Int) (xs : List Int)
    (h : ∀ x ∈ xs, x ≤ now_sec) : ∀ u, update_time_loop now_sec xs u = u := by
  induction xs with
  | nil => intro u; rfl
  | cons x rest ih =>
    intro u
    have hx : ¬ x > now_sec := by have := h x (by simp); omega
    simp only [update_time_loop, if_neg hx]
    exact ih (fun y hy => h y (by simp [hy])) u

/-- C10, at the history `[100, 50]` and the time `10`: both entries are ahead of the time,
the loop keeps the later entry in index order, so `50` is written to the clock, not the
largest entry `100`, which is still ahead of the reconciled time. -/
theorem reconcile_not_latest :
    (∃ x ∈ [(100 : Int), 50], x > 10) ∧
      reconcile [100, 50] ⟨10, 0⟩ = (⟨50, 0⟩, some ⟨50, 0⟩) ∧
      (reconcile [100, 50] ⟨10, 0⟩).2 ≠ some ⟨100, 0⟩ ∧
      (∃ x ∈ [(100 : Int), 50], x > (reconcile [100, 50] ⟨10, 0⟩).1.tv_sec) := by
  decide

/-- C10 as amended. When some `last_run` is ahead of `now`, let `u` be the one of the
highest index that is; if `u` is not zero, `now.tv_sec` becomes `u` and that time is written
to the real-time clock.  When no `last_run` is ahead of `now`, the time is left unchanged and
the clock is not written. -/
theorem reconcile_last_ahead (history : List Int) (now : timeval) :
    (∀ pre u post, history = pre ++ u :: post → u > now.tv_sec →
        (∀ x ∈ post, x ≤ now.tv_sec) → u ≠ 0 →
        reconcile history now = (⟨u, now.tv_usec⟩, some ⟨u, now.tv_usec⟩)) ∧
      ((∀ x ∈ history, x ≤ now.tv_sec) → reconcile history now = (now, none)) := by
  constructor
  · intro pre u post hh hu hpost h0
    have hl : update_time_loop now.tv_sec history 0 = u := by
      rw [hh, update_time_loop_append]
      simp only [update_time_loop, if_pos hu]
      exact update_time_loop_none_ahead now.tv_sec post hpost u
    simp only [reconcile, hl]
    rw [if_pos h0]
  · intro hnone
    have hl : update_time_loop now.tv_sec history 0 = 0 :=
      update_time_loop_none_ahead now.tv_sec history hnone 0
    simp only [reconcile, hl]
    rfl

/-- Witness for C10 as amended: the history `[100, 50, 5]` at time `10`, and the history
`[3, 5]` at time `10`. -/
theorem reconcile_last_ahead_witness :
    reconcile [100, 50, 5] ⟨10, 0⟩ = (⟨50, 0⟩, some ⟨50, 0⟩) ∧
      reconcile [3, 5] ⟨10, 0⟩ = (⟨10, 0⟩, none) :=
  ⟨(reconcile_last_ahead [100, 50, 5] ⟨10, 0⟩).1 [100] 50 [5] rfl (by decide) (by decide)
      (by decide),
    (reconcile_last_ahead [3, 5] ⟨10, 0⟩).2 (by decide)⟩

end Artemia
